import Mathlib

/-!
Verification development for download_videos.py, a single-site crawler and
video downloader.  The Python source is embedded shallowly:

* The library functions urllib.parse.urlparse / urljoin and os.path.basename
  are modelled after the CPython implementation (urllib/parse.py,
  posixpath.py), restricted to well-formed inputs: the IPv6-bracket and
  netloc NFKC validation steps, which only raise ValueError on malformed
  URLs, are omitted.
* BeautifulSoup is out of scope for the program design (it is a library
  service); the two places its parse tree is consulted (anchor href
  attributes, and src attributes of source tags nested in video tags) are
  modelled as oracle functions carried in the crawl environment.
* The regex scan of find_video_urls is modelled concretely with Python
  leftmost / greedy-with-backtracking semantics for the two fixed patterns.
* The crawl loop of main is a fuel-indexed state machine over Finset-valued
  state (visited_pages, to_crawl, found_videos model Python sets); the
  arbitrary set.pop order is a choice function parameter.  The list of URLs
  for which an HTTP GET was actually issued is kept as an instrumentation
  field fetchLog.
* The download stage models the filesystem as an association list from
  filenames to file contents and the network as a partial function from
  URLs to contents; a None result stands for a raised requests exception
  (connection error or raise_for_status), which the Python code does not
  catch in the download stage.
-/

/-! ## Model of urllib.parse (CPython) -/

/-- Characters allowed in a URL scheme after the first (CPython scheme_chars). -/
def schemeChars : List Char :=
  ("abcdefghijklmnopqrstuvwxyzABCDEFGHIJKLMNOPQRSTUVWXYZ0123456789+-.").toList

/-- Schemes for which relative resolution is performed (CPython uses_relative). -/
def usesRelative : List String :=
  ["", "ftp", "http", "gopher", "nntp", "imap", "wais", "file", "https",
   "shttp", "mms", "prospero", "rtsp", "rtspu", "sftp", "svn", "svn+ssh",
   "ws", "wss"]

/-- Schemes that use a network location (CPython uses_netloc). -/
def usesNetloc : List String :=
  ["", "ftp", "http", "gopher", "nntp", "telnet", "imap", "wais", "file",
   "mms", "https", "shttp", "snews", "prospero", "rtsp", "rtspu", "rsync",
   "svn", "svn+ssh", "sftp", "nfs", "git", "git+ssh", "ws", "wss",
   "itms-services"]

/-- Schemes for which the params component is split off (CPython uses_params). -/
def usesParams : List String :=
  ["", "ftp", "hdl", "prospero", "http", "imap", "https", "shttp", "rtsp",
   "rtspu", "sip", "sips", "mms", "sftp", "tel"]

/-- WHATWG C0-control-or-space predicate used by urlsplit to lstrip the URL. -/
def isC0OrSpace (c : Char) : Bool := c.toNat ≤ 32

/-- The bytes removed from URLs by urlsplit (tab, carriage return, newline). -/
def isUnsafeUrlChar (c : Char) : Bool := c = '\t' || c = '\r' || c = '\n'

/-- urlsplit preprocessing: lstrip C0 control or space, remove tab/CR/LF. -/
def cleanUrl (cs : List Char) : List Char :=
  (cs.dropWhile isC0OrSpace).filter (fun c => !(isUnsafeUrlChar c))

/-- Python s.split(c, 1): the parts before and after the first occurrence of
c (the whole string and the empty string when c is absent). -/
def splitAtFirstChar (cs : List Char) (c : Char) : List Char × List Char :=
  match cs.findIdx? (fun x => x = c) with
  | none => (cs, [])
  | some i => (cs.take i, cs.drop (i + 1))

/-- Result of urlsplit: scheme, netloc, path, query, fragment. -/
structure SplitResult where
  scheme : String
  netloc : String
  path : String
  query : String
  fragment : String
deriving DecidableEq

/-- Model of urllib.parse.urlsplit with allow_fragments=True.  The
defaultScheme argument is CPython's scheme parameter. -/
def urlsplit (url0 : String) (defaultScheme : String) : SplitResult :=
  let cs0 := cleanUrl url0.toList
  let (scheme, cs1) :=
    match cs0.findIdx? (fun x => x = ':') with
    | some i =>
      if 0 < i ∧ (cs0.headD ' ').isAlpha ∧
          (cs0.take i).all (fun c => schemeChars.contains c) then
        (((cs0.take i).map Char.toLower).asString, cs0.drop (i + 1))
      else (defaultScheme, cs0)
    | none => (defaultScheme, cs0)
  let (netloc, cs2) :=
    if cs1.take 2 = ['/', '/'] then
      let rest := cs1.drop 2
      match rest.findIdx? (fun c => c = '/' || c = '?' || c = '#') with
      | none => (rest, ([] : List Char))
      | some d => (rest.take d, rest.drop d)
    else ([], cs1)
  let (cs3, fragment) :=
    if cs2.contains '#' then splitAtFirstChar cs2 '#' else (cs2, [])
  let (path, query) :=
    if cs3.contains '?' then splitAtFirstChar cs3 '?' else (cs3, [])
  ⟨scheme, netloc.asString, path.asString, query.asString, fragment.asString⟩

/-- Index of the last occurrence of c in cs (Python rfind, for present c). -/
def rfindChar (cs : List Char) (c : Char) : Option Nat :=
  match cs.reverse.findIdx? (fun x => x = c) with
  | none => none
  | some i => some (cs.length - 1 - i)

/-- Index of the first occurrence of c in cs at or after start (Python find
with a start argument). -/
def findCharFrom (cs : List Char) (c : Char) (start : Nat) : Option Nat :=
  match (cs.drop start).findIdx? (fun x => x = c) with
  | none => none
  | some i => some (start + i)

/-- Model of urllib.parse._splitparams: split the params off the last path
segment. -/
def splitparams (cs : List Char) : List Char × List Char :=
  let iOpt :=
    if cs.contains '/' then
      findCharFrom cs ';' ((rfindChar cs '/').getD 0)
    else cs.findIdx? (fun x => x = ';')
  match iOpt with
  | none => (cs, [])
  | some i => (cs.take i, cs.drop (i + 1))

/-- Result of urlparse: scheme, netloc, path, params, query, fragment. -/
structure ParseResult where
  scheme : String
  netloc : String
  path : String
  params : String
  query : String
  fragment : String
deriving DecidableEq

/-- Model of urllib.parse.urlparse. -/
def urlparse (url : String) (defaultScheme : String) : ParseResult :=
  let s := urlsplit url defaultScheme
  if s.scheme ∈ usesParams ∧ s.path.toList.contains ';' then
    let pp := splitparams s.path.toList
    ⟨s.scheme, s.netloc, pp.1.asString, pp.2.asString, s.query, s.fragment⟩
  else
    ⟨s.scheme, s.netloc, s.path, "", s.query, s.fragment⟩

/-- Model of urllib.parse.urlunsplit. -/
def urlunsplit (scheme netloc url query fragment : String) : String :=
  let u1 :=
    if netloc ≠ "" ∨ (url ≠ "" ∧ url.toList.take 2 = ['/', '/']) then
      let u0 := if url ≠ "" ∧ url.toList.take 1 ≠ ['/'] then "/" ++ url else url
      "//" ++ netloc ++ u0
    else url
  let u2 := if scheme ≠ "" then scheme ++ ":" ++ u1 else u1
  let u3 := if query ≠ "" then u2 ++ "?" ++ query else u2
  if fragment ≠ "" then u3 ++ "#" ++ fragment else u3

/-- Model of urllib.parse.urlunparse. -/
def urlunparse (scheme netloc url params query fragment : String) : String :=
  let u := if params ≠ "" then url ++ ";" ++ params else url
  urlunsplit scheme netloc u query fragment

/-- Python s.split(c) with no maxsplit, on character lists. -/
def splitChar (c : Char) : List Char → List (List Char)
  | [] => [[]]
  | x :: xs =>
    let r := splitChar c xs
    if x = c then [] :: r else (x :: r.headD []) :: r.tail

/-- Python s.split(sep) for a one-character separator, on strings. -/
def splitSlash (s : String) : List String := (splitChar '/' s.toList).map List.asString

/-- The slice assignment segments[1:-1] = filter(None, segments[1:-1]) from
urljoin: drop empty segments, keeping the first and last elements. -/
def keepEnds (l : List String) : List String :=
  match l with
  | [] => []
  | [a] => [a]
  | a :: rest => a :: ((rest.dropLast).filter (fun s => s ≠ "")) ++ [rest.getLastD ""]

/-- The segment resolution loop of urljoin: ".." pops (ignoring underflow),
"." is dropped, anything else is appended. -/
def resolveSegs : List String → List String → List String
  | [], acc => acc
  | s :: rest, acc =>
    if s = ".." then resolveSegs rest acc.dropLast
    else if s = "." then resolveSegs rest acc
    else resolveSegs rest (acc ++ [s])

/-- Model of urllib.parse.urljoin. -/
def urljoin (base url : String) : String :=
  if base = "" then url
  else if url = "" then base
  else
    let b := urlparse base ""
    let u := urlparse url b.scheme
    if u.scheme ≠ b.scheme ∨ u.scheme ∉ usesRelative then url
    else if u.scheme ∈ usesNetloc ∧ u.netloc ≠ "" then
      urlunparse u.scheme u.netloc u.path u.params u.query u.fragment
    else
      let netloc := if u.scheme ∈ usesNetloc then b.netloc else u.netloc
      if u.path = "" ∧ u.params = "" then
        let query := if u.query = "" then b.query else u.query
        urlunparse u.scheme netloc b.path b.params query u.fragment
      else
        let baseParts0 := splitSlash b.path
        let baseParts :=
          if baseParts0.getLastD "" ≠ "" then baseParts0.dropLast else baseParts0
        let segments :=
          if u.path.toList.take 1 = ['/'] then splitSlash u.path
          else keepEnds (baseParts ++ splitSlash u.path)
        let resolved0 := resolveSegs segments []
        let resolved :=
          if segments.getLastD "" = "." ∨ segments.getLastD "" = ".." then
            resolved0 ++ [""]
          else resolved0
        let joined := String.intercalate "/" resolved
        let path := if joined = "" then "/" else joined
        urlunparse u.scheme netloc path u.params u.query u.fragment

/-- Model of os.path.basename (posixpath): everything after the last slash. -/
def os_path_basename (p : String) : String :=
  ((p.toList.reverse.takeWhile (fun c => c ≠ '/')).reverse).asString

/-! ## Configuration constants of download_videos.py -/

/-- The configured root URL (CONFIG section of the script).  The functions
below take the configured root as an explicit parameter so that properties
can be stated for any configured value; this constant is the value in the
shipped CONFIG section. -/
def BASE_URL : String := "https://enterawebsite.com/"

/-- The configured destination folder. -/
def VIDEO_DIR : String := "videos"

/-- The configured page-visit ceiling. -/
def MAX_PAGES : Nat := 1000

/-! ## Link Classifier and Page Link Extractor -/

/-- Model of is_internal_link.  The href argument is Optional because the
Python function is documented for missing (None) hrefs; Python truthiness
(not href) rejects both None and the empty string.  The base parameter is
the module-level BASE_URL configuration constant that the Python function
reads. -/
def is_internal_link (base : String) (href : Option String) : Bool :=
  match href with
  | none => false
  | some h =>
    if h = "" then false
    else decide ((urlparse (urljoin base h) "").netloc = (urlparse base "").netloc)

/-- Python href.split(the hash character, 1)[0]: the href with any fragment
suffix removed. -/
def stripFragment (h : String) : String :=
  if h.toList.contains '#' then (splitAtFirstChar h.toList '#').1.asString else h

/-- Model of gather_page_urls.  anchorHrefs is the oracle for the
BeautifulSoup query find_all("a", href=True) on the page content: the list
of href attribute values of anchors, in document order.  baseConfig is the
module-level BASE_URL read by is_internal_link; base is the page URL the
hrefs are resolved against. -/
def gather_page_urls (anchorHrefs : String → List String)
    (baseConfig html base : String) : Finset String :=
  ((((anchorHrefs html).map stripFragment).filter
      (fun href => is_internal_link baseConfig (some href))).map
    (fun href => urljoin base href)).toFinset

/-! ## Video Link Extractor: regex pass

Model of re.findall for the two patterns of find_video_urls, with Python
leftmost scanning and greedy-with-backtracking repetition:
  src=["'](/video/[^"']+\.(?:mp4|webm))  and the same with href.
-/

/-- The character class of the repetition: any character except a quote. -/
def notQuote (c : Char) : Bool := !(c = '"' || c = '\'')

/-- Quote characters accepted after the equals sign. -/
def isQuote (c : Char) : Bool := c = '"' || c = '\''

/-- Length of the maximal prefix of rest inside the character class: the
first length the greedy repetition tries. -/
def runLen (rest : List Char) : Nat := (rest.takeWhile notQuote).length

/-- The literal tail of the pattern at offset j: a dot followed by mp4
(tried first) or webm.  Returns the matched extension characters. -/
def extAt (rest : List Char) (j : Nat) : Option (List Char) :=
  if (".mp4".toList).isPrefixOf (rest.drop j) then some (".mp4".toList)
  else if (".webm".toList).isPrefixOf (rest.drop j) then some (".webm".toList)
  else none

/-- Greedy backtracking of the repetition: try the largest count first and
shrink until the extension tail matches; fail below one repetition. -/
def tryFrom (rest : List Char) : Nat → Option (Nat × List Char)
  | 0 => none
  | j + 1 =>
    match extAt rest (j + 1) with
    | some ext => some (j + 1, ext)
    | none => tryFrom rest j

/-- Match the capture group remainder after the literal /video/ prefix:
the greedily matched run followed by the extension.  Returns the matched
characters of the group after /video/, and their count. -/
def matchGroup (rest : List Char) : Option (List Char × Nat) :=
  match tryFrom rest (runLen rest) with
  | none => none
  | some (j, ext) => some (rest.take j ++ ext, j + ext.length)

/-- Try the whole pattern anchored at the head of cs for the given attribute
name: attr= then a quote then /video/ then the group.  Returns the captured
group (what re.findall collects) and the total matched length. -/
def matchAttrAt (attr : List Char) (cs : List Char) : Option (String × Nat) :=
  let pre := attr ++ ['=']
  if pre.isPrefixOf cs then
    match cs.drop pre.length with
    | [] => none
    | q :: cs2 =>
      if isQuote q then
        if ("/video/".toList).isPrefixOf cs2 then
          match matchGroup (cs2.drop 7) with
          | none => none
          | some (grp, glen) =>
            some ((("/video/".toList) ++ grp).asString, pre.length + 1 + 7 + glen)
        else none
      else none
  else none

/-- The re.findall scan: leftmost matches, resuming after each match. -/
def scanAll (attr : List Char) : List Char → Nat → List String
  | _, 0 => []
  | [], _ => []
  | cs, fuel + 1 =>
    match matchAttrAt attr cs with
    | some (cap, len) => cap :: scanAll attr (cs.drop len) fuel
    | none => scanAll attr (cs.drop 1) fuel

/-- re.findall of the video pattern for one attribute name over page text. -/
def findallVideo (attr : String) (html : String) : List String :=
  scanAll attr.toList html.toList (html.toList.length + 1)

/-- Model of find_video_urls.  videoSourceSrcs is the oracle for the
structural BeautifulSoup pass: for each source tag nested under a video tag,
the value of its src attribute (none when absent).  Python keeps only truthy
values (present and non-empty) and resolves them against the page URL; the
two regex passes are concrete. -/
def find_video_urls (videoSourceSrcs : String → List (Option String))
    (html base : String) : Finset String :=
  ((((videoSourceSrcs html).filterMap id).filter (fun raw => raw ≠ "")).map
      (fun raw => urljoin base raw) ++
    (findallVideo "src" html).map (fun m => urljoin base m) ++
    (findallVideo "href" html).map (fun m => urljoin base m)).toFinset

/-! ## Asset Downloader -/

/-- Outcome of download_file for one URL when no exception is raised. -/
inductive DlOutcome where
  | skipped
  | saved
deriving DecidableEq

/-- Filesystem and instrumentation state of the download stage: the files
present in the destination folder as an association list from filename to
content, and the list of URLs for which a network transfer was performed. -/
structure DlState where
  files : List (String × Nat)
  transfers : List String
deriving DecidableEq

/-- filename = os.path.basename(urlparse(url).path) in download_file. -/
def dlFilename (url : String) : String := os_path_basename (urlparse url "").path

/-- Model of download_file.  net maps a URL to the content obtained by
requests.get; none stands for a raised requests exception (connection
failure, timeout, or the non-2xx status turned into an exception by
raise_for_status), which the function does not catch, so it surfaces as
Except.error carrying the failing URL.  The existence check happens before
any network activity; a successful transfer appends the new file and logs
the URL. -/
def download_file (net : String → Option Nat) (st : DlState) (url : String) :
    Except String (DlState × DlOutcome) :=
  let filename := dlFilename url
  if (st.files.lookup filename).isSome then Except.ok (st, DlOutcome.skipped)
  else
    match net url with
    | none => Except.error url
    | some content =>
      Except.ok
        ({ files := st.files ++ [(filename, content)],
           transfers := st.transfers ++ [url] }, DlOutcome.saved)

/-- The download loop of main: download_file is invoked on each URL in turn
with no exception handler, so the first error aborts the remaining
downloads.  Returns the filesystem state reached and the propagated
exception, if any. -/
def downloadAll (net : String → Option Nat) (st : DlState) :
    List String → DlState × Option String
  | [] => (st, none)
  | u :: rest =>
    match download_file net st u with
    | Except.error e => (st, some e)
    | Except.ok (st', _) => downloadAll net st' rest

/-- The processing order of the download loop: sorted(found_videos), i.e.
the ascending enumeration of the found set. -/
def downloadOrder (found : Finset String) : List String :=
  found.sort (fun a b => a ≤ b)

/-! ## Crawl Scheduler -/

/-- The environment of one crawl run: the network (none models a raised
requests exception, including non-2xx statuses via raise_for_status; some
html models a 2xx response body) and the two BeautifulSoup oracles, plus the
configured BASE_URL. -/
structure CrawlEnv where
  fetch : String → Option String
  anchorHrefs : String → List String
  videoSourceSrcs : String → List (Option String)
  baseURL : String

/-- The mutable state of main's crawl loop.  visited, frontier and found
model the Python sets visited_pages, to_crawl and found_videos; fetchLog is
instrumentation recording each URL for which an HTTP GET was issued, in
order. -/
structure CrawlState where
  visited : Finset String
  frontier : Finset String
  found : Finset String
  fetchLog : List String
deriving DecidableEq

/-- The state at crawl start: empty visited and found, the frontier seeded
with the configured root URL only. -/
def initState (base : String) : CrawlState := ⟨∅, {base}, ∅, []⟩

/-- The while condition: to_crawl nonempty and the visited count below the
page ceiling. -/
def crawlCond (maxPages : Nat) (s : CrawlState) : Prop :=
  s.frontier ≠ ∅ ∧ s.visited.card < maxPages

instance (maxPages : Nat) (s : CrawlState) : Decidable (crawlCond maxPages s) := by
  unfold crawlCond; infer_instance

/-- One iteration body of the crawl loop, for the URL popped from the
frontier.  Mirrors main: pop; skip if already visited; on fetch failure mark
visited and continue; on success mark visited, accumulate video URLs, and
add the discovered internal pages not already visited to the frontier. -/
def crawlStep (env : CrawlEnv) (url : String) (s : CrawlState) : CrawlState :=
  let frontier1 := s.frontier.erase url
  if url ∈ s.visited then
    { s with frontier := frontier1 }
  else
    match env.fetch url with
    | none =>
      { s with frontier := frontier1, visited := insert url s.visited,
               fetchLog := s.fetchLog ++ [url] }
    | some html =>
      let visited1 := insert url s.visited
      let found1 := s.found ∪ find_video_urls env.videoSourceSrcs html url
      let newPages := gather_page_urls env.anchorHrefs env.baseURL html url \ visited1
      { visited := visited1, frontier := frontier1 ∪ newPages,
        found := found1, fetchLog := s.fetchLog ++ [url] }

/-- The crawl loop, fuel-indexed.  pick models the arbitrary element choice
of Python's set.pop; it may depend on the iteration number i, so any
schedule is representable.  The fuel only bounds the number of iterations
considered; termination within every sufficiently large fuel is proved
separately. -/
def crawlLoop (env : CrawlEnv) (pick : Nat → Finset String → String)
    (maxPages : Nat) : Nat → Nat → CrawlState → CrawlState
  | _, 0, s => s
  | i, n + 1, s =>
    if crawlCond maxPages s then
      crawlLoop env pick maxPages (i + 1) n (crawlStep env (pick i s.frontier) s)
    else s

/-- The invariant of the crawl loop: frontier and visited are disjoint, the
fetch log has no duplicates, and every fetched URL is visited. -/
def CrawlInv (s : CrawlState) : Prop :=
  Disjoint s.frontier s.visited ∧ s.fetchLog.Nodup ∧ ∀ u ∈ s.fetchLog, u ∈ s.visited

/-- The Orchestrator: run the crawl from the configured root, stop if no
videos were found, otherwise run the download loop over the sorted video
URL set. -/
def mainRun (env : CrawlEnv) (pick : Nat → Finset String → String)
    (maxPages : Nat) (net : String → Option Nat) (st : DlState) (fuel : Nat) :
    CrawlState × DlState × Option String :=
  let c := crawlLoop env pick maxPages 0 fuel (initState env.baseURL)
  if c.found = ∅ then (c, st, none)
  else
    let r := downloadAll net st (downloadOrder c.found)
    (c, r.1, r.2)

/-- A concrete valid choice function, used to instantiate theorems with
hypotheses about the pick function: the least element of the frontier. -/
def defaultPick : Nat → Finset String → String :=
  fun _ s => (s.sort (fun a b => a ≤ b)).headD ""

/-- A concrete environment in which every fetch fails; used as a witness
environment. -/
def envFail : CrawlEnv :=
  ⟨fun _ => none, fun _ => [], fun _ => [], "https://x.test/"⟩

/-- Concrete network for download witnesses: the b video is unreachable. -/
def netB : String → Option Nat :=
  fun u => if u = "https://h.test/video/b.mp4" then none else some 1

/-- Concrete URL list for the download counterexample. -/
def urls3 : List String :=
  ["https://h.test/video/a.mp4", "https://h.test/video/b.mp4",
   "https://h.test/video/c.mp4"]

/-- Concrete download state with one file already present. -/
def stA : DlState := ⟨[("a.mp4", 7)], []⟩

/-! ## Helper lemmas: crawl loop -/

theorem crawlStep_of_mem_visited (env : CrawlEnv) (url : String) (s : CrawlState)
    (h : url ∈ s.visited) :
    crawlStep env url s = { s with frontier := s.frontier.erase url } := by
  simp [crawlStep, h]

theorem crawlStep_of_fail (env : CrawlEnv) (url : String) (s : CrawlState)
    (h : url ∉ s.visited) (hf : env.fetch url = none) :
    crawlStep env url s =
      { s with frontier := s.frontier.erase url, visited := insert url s.visited,
               fetchLog := s.fetchLog ++ [url] } := by
  simp [crawlStep, h, hf]

theorem crawlStep_of_success (env : CrawlEnv) (url : String) (s : CrawlState)
    (html : String) (h : url ∉ s.visited) (hf : env.fetch url = some html) :
    crawlStep env url s =
      { visited := insert url s.visited,
        frontier := s.frontier.erase url ∪
          (gather_page_urls env.anchorHrefs env.baseURL html url \ insert url s.visited),
        found := s.found ∪ find_video_urls env.videoSourceSrcs html url,
        fetchLog := s.fetchLog ++ [url] } := by
  simp [crawlStep, h, hf]

theorem crawlStep_visited_of_not_mem (env : CrawlEnv) (url : String) (s : CrawlState)
    (h : url ∉ s.visited) :
    (crawlStep env url s).visited = insert url s.visited := by
  cases hf : env.fetch url with
  | none => rw [crawlStep_of_fail env url s h hf]
  | some html => rw [crawlStep_of_success env url s html h hf]

theorem crawlStep_log_of_not_mem (env : CrawlEnv) (url : String) (s : CrawlState)
    (h : url ∉ s.visited) :
    (crawlStep env url s).fetchLog = s.fetchLog ++ [url] := by
  cases hf : env.fetch url with
  | none => rw [crawlStep_of_fail env url s h hf]
  | some html => rw [crawlStep_of_success env url s html h hf]

theorem crawlStep_visited_subset (env : CrawlEnv) (url : String) (s : CrawlState) :
    s.visited ⊆ (crawlStep env url s).visited := by
  by_cases h : url ∈ s.visited
  · rw [crawlStep_of_mem_visited env url s h]
  · rw [crawlStep_visited_of_not_mem env url s h]
    exact Finset.subset_insert url s.visited

theorem crawlLoop_zero (env : CrawlEnv) (pick : Nat → Finset String → String)
    (maxPages i : Nat) (s : CrawlState) :
    crawlLoop env pick maxPages i 0 s = s := rfl

theorem crawlLoop_succ_of_cond (env : CrawlEnv) (pick : Nat → Finset String → String)
    (maxPages i n : Nat) (s : CrawlState) (h : crawlCond maxPages s) :
    crawlLoop env pick maxPages i (n + 1) s =
      crawlLoop env pick maxPages (i + 1) n (crawlStep env (pick i s.frontier) s) := by
  simp [crawlLoop, h]

theorem crawlLoop_of_not_cond (env : CrawlEnv) (pick : Nat → Finset String → String)
    (maxPages i n : Nat) (s : CrawlState) (h : ¬ crawlCond maxPages s) :
    crawlLoop env pick maxPages i n s = s := by
  cases n with
  | zero => rfl
  | succ m => simp [crawlLoop, h]

theorem crawlStep_inv (env : CrawlEnv) (url : String) (s : CrawlState)
    (h : CrawlInv s) : CrawlInv (crawlStep env url s) := by
  obtain ⟨hd, hn, hm⟩ := h
  by_cases hv : url ∈ s.visited
  · rw [crawlStep_of_mem_visited env url s hv]
    exact ⟨Finset.disjoint_of_subset_left (Finset.erase_subset url s.frontier) hd, hn, hm⟩
  · have hlognodup : (s.fetchLog ++ [url]).Nodup := by
      rw [List.nodup_append]
      refine ⟨hn, List.nodup_singleton url, ?_⟩
      intro a ha hb
      rw [List.mem_singleton] at hb
      subst hb
      exact hv (hm a ha)
    have hlogmem : ∀ u ∈ s.fetchLog ++ [url], u ∈ insert url s.visited := by
      intro u hu
      rcases List.mem_append.mp hu with h1 | h2
      · exact Finset.mem_insert_of_mem (hm u h1)
      · rw [List.mem_singleton] at h2
        rw [h2]
        exact Finset.mem_insert_self url s.visited
    have hderase : Disjoint (s.frontier.erase url) (insert url s.visited) := by
      rw [Finset.disjoint_insert_right]
      exact ⟨Finset.not_mem_erase url s.frontier,
        Finset.disjoint_of_subset_left (Finset.erase_subset url s.frontier) hd⟩
    cases hf : env.fetch url with
    | none =>
      rw [crawlStep_of_fail env url s hv hf]
      exact ⟨hderase, hlognodup, hlogmem⟩
    | some html =>
      rw [crawlStep_of_success env url s html hv hf]
      refine ⟨?_, hlognodup, hlogmem⟩
      rw [Finset.disjoint_union_left]
      exact ⟨hderase, Finset.sdiff_disjoint⟩

theorem crawlLoop_inv (env : CrawlEnv) (pick : Nat → Finset String → String)
    (maxPages : Nat) :
    ∀ (n i : Nat) (s : CrawlState), CrawlInv s →
      CrawlInv (crawlLoop env pick maxPages i n s) := by
  intro n
  induction n with
  | zero => intro i s h; exact h
  | succ n ih =>
    intro i s h
    by_cases hc : crawlCond maxPages s
    · rw [crawlLoop_succ_of_cond env pick maxPages i n s hc]
      exact ih (i + 1) _ (crawlStep_inv env _ s h)
    · rw [crawlLoop_of_not_cond env pick maxPages i (n + 1) s hc]
      exact h

theorem crawlLoop_visited_mono (env : CrawlEnv) (pick : Nat → Finset String → String)
    (maxPages : Nat) :
    ∀ (n i : Nat) (s : CrawlState),
      s.visited ⊆ (crawlLoop env pick maxPages i n s).visited := by
  intro n
  induction n with
  | zero => intro i s; exact Finset.Subset.refl s.visited
  | succ n ih =>
    intro i s
    by_cases hc : crawlCond maxPages s
    · rw [crawlLoop_succ_of_cond env pick maxPages i n s hc]
      exact Finset.Subset.trans (crawlStep_visited_subset env _ s) (ih (i + 1) _)
    · rw [crawlLoop_of_not_cond env pick maxPages i (n + 1) s hc]

theorem crawlLoop_succ_fuel_mono (env : CrawlEnv) (pick : Nat → Finset String → String)
    (maxPages : Nat) :
    ∀ (n i : Nat) (s : CrawlState),
      (crawlLoop env pick maxPages i n s).visited ⊆
        (crawlLoop env pick maxPages i (n + 1) s).visited := by
  intro n
  induction n with
  | zero =>
    intro i s
    rw [crawlLoop_zero]
    exact crawlLoop_visited_mono env pick maxPages 1 i s
  | succ n ih =>
    intro i s
    by_cases hc : crawlCond maxPages s
    · rw [crawlLoop_succ_of_cond env pick maxPages i n s hc,
          crawlLoop_succ_of_cond env pick maxPages i (n + 1) s hc]
      exact ih (i + 1) _
    · rw [crawlLoop_of_not_cond env pick maxPages i (n + 1) s hc,
          crawlLoop_of_not_cond env pick maxPages i (n + 2) s hc]

theorem crawlStep_card_le (env : CrawlEnv) (url : String) (s : CrawlState)
    (maxPages : Nat) (h : s.visited.card < maxPages) :
    (crawlStep env url s).visited.card ≤ maxPages := by
  by_cases hv : url ∈ s.visited
  · rw [crawlStep_of_mem_visited env url s hv]
    exact Nat.le_of_lt h
  · rw [crawlStep_visited_of_not_mem env url s hv]
    calc (insert url s.visited).card ≤ s.visited.card + 1 := Finset.card_insert_le url s.visited
      _ ≤ maxPages := h

theorem crawlLoop_card_le (env : CrawlEnv) (pick : Nat → Finset String → String)
    (maxPages : Nat) :
    ∀ (n i : Nat) (s : CrawlState), s.visited.card ≤ maxPages →
      (crawlLoop env pick maxPages i n s).visited.card ≤ maxPages := by
  intro n
  induction n with
  | zero => intro i s h; exact h
  | succ n ih =>
    intro i s h
    by_cases hc : crawlCond maxPages s
    · rw [crawlLoop_succ_of_cond env pick maxPages i n s hc]
      exact ih (i + 1) _ (crawlStep_card_le env _ s maxPages hc.2)
    · rw [crawlLoop_of_not_cond env pick maxPages i (n + 1) s hc]
      exact h

theorem log_length_le_card (l : List String) (v : Finset String)
    (hn : l.Nodup) (hm : ∀ u ∈ l, u ∈ v) : l.length ≤ v.card := by
  have h1 : l.toFinset.card = l.length := List.toFinset_card_of_nodup hn
  have h2 : l.toFinset ⊆ v := fun u hu => hm u (List.mem_toFinset.mp hu)
  calc l.length = l.toFinset.card := h1.symm
    _ ≤ v.card := Finset.card_le_card h2

theorem crawlLoop_count_of_visited (env : CrawlEnv)
    (pick : Nat → Finset String → String) (maxPages : Nat) :
    ∀ (n i : Nat) (s : CrawlState) (u : String), u ∈ s.visited →
      ((crawlLoop env pick maxPages i n s).fetchLog).count u = s.fetchLog.count u := by
  intro n
  induction n with
  | zero => intro i s u _; rfl
  | succ n ih =>
    intro i s u hu
    by_cases hc : crawlCond maxPages s
    · rw [crawlLoop_succ_of_cond env pick maxPages i n s hc]
      set url := pick i s.frontier with hurl
      by_cases hv : url ∈ s.visited
      · rw [ih (i + 1) _ u (by rw [crawlStep_of_mem_visited env url s hv]; exact hu)]
        rw [crawlStep_of_mem_visited env url s hv]
      · have hne : url ≠ u := fun h => hv (h ▸ hu)
        have hu' : u ∈ (crawlStep env url s).visited :=
          crawlStep_visited_subset env url s hu
        rw [ih (i + 1) _ u hu', crawlStep_log_of_not_mem env url s hv,
            List.count_append]
        simp [List.count_singleton', hne]
    · rw [crawlLoop_of_not_cond env pick maxPages i (n + 1) s hc]

theorem defaultPick_valid :
    ∀ (n : Nat) (s : Finset String), s.Nonempty → defaultPick n s ∈ s := by
  intro n s h
  obtain ⟨a, ha⟩ := h
  have hasort : a ∈ s.sort (fun a b => a ≤ b) := (Finset.mem_sort _).mpr ha
  have hne : s.sort (fun a b => a ≤ b) ≠ [] := by
    intro hnil
    rw [hnil] at hasort
    exact List.not_mem_nil a hasort
  have hmem : (s.sort (fun a b => a ≤ b)).headD "" ∈ s.sort (fun a b => a ≤ b) := by
    cases hl : s.sort (fun a b => a ≤ b) with
    | nil => exact absurd hl hne
    | cons a t => simp
  exact (Finset.mem_sort (fun a b => a ≤ b)).mp hmem

theorem crawl_term_aux (env : CrawlEnv) (pick : Nat → Finset String → String)
    (maxPages : Nat) (hpick : ∀ k t, t.Nonempty → pick k t ∈ t) :
    ∀ (a b i : Nat) (s : CrawlState), maxPages - s.visited.card ≤ a →
      s.frontier.card ≤ b →
      ∃ n, ¬ crawlCond maxPages (crawlLoop env pick maxPages i n s) := by
  intro a
  induction a with
  | zero =>
    intro b i s ha _
    refine ⟨0, ?_⟩
    rw [crawlLoop_zero]
    intro hc
    have := hc.2
    omega
  | succ a iha =>
    intro b
    induction b with
    | zero =>
      intro i s _ hb
      refine ⟨0, ?_⟩
      rw [crawlLoop_zero]
      intro hc
      exact hc.1 (Finset.card_eq_zero.mp (Nat.le_zero.mp hb))
    | succ b ihb =>
      intro i s ha hb
      by_cases hc : crawlCond maxPages s
      · have hne : s.frontier.Nonempty := Finset.nonempty_iff_ne_empty.mpr hc.1
        have hmem : pick i s.frontier ∈ s.frontier := hpick i s.frontier hne
        have hcpos : 1 ≤ s.frontier.card := Finset.card_pos.mpr hne
        by_cases hv : pick i s.frontier ∈ s.visited
        · have hstep : crawlStep env (pick i s.frontier) s =
              { s with frontier := s.frontier.erase (pick i s.frontier) } :=
            crawlStep_of_mem_visited env _ s hv
          have hcard : (s.frontier.erase (pick i s.frontier)).card =
              s.frontier.card - 1 := Finset.card_erase_of_mem hmem
          obtain ⟨n, hn⟩ := ihb (i + 1)
            { s with frontier := s.frontier.erase (pick i s.frontier) }
            (by simpa using ha) (by rw [hcard]; omega)
          refine ⟨n + 1, ?_⟩
          rw [crawlLoop_succ_of_cond env pick maxPages i n s hc, hstep]
          exact hn
        · have hvc : (crawlStep env (pick i s.frontier) s).visited.card =
              s.visited.card + 1 := by
            rw [crawlStep_visited_of_not_mem env _ s hv,
                Finset.card_insert_of_not_mem hv]
          obtain ⟨n, hn⟩ := iha ((crawlStep env (pick i s.frontier) s).frontier.card)
            (i + 1) (crawlStep env (pick i s.frontier) s) (by omega) le_rfl
          refine ⟨n + 1, ?_⟩
          rw [crawlLoop_succ_of_cond env pick maxPages i n s hc]
          exact hn
      · exact ⟨0, by rw [crawlLoop_zero]; exact hc⟩

/-! ## Helper lemmas: download stage -/

theorem lookup_append_of_isSome (l l2 : List (String × Nat)) (k : String)
    (h : (l.lookup k).isSome) : (l ++ l2).lookup k = l.lookup k := by
  induction l with
  | nil => simp [List.lookup] at h
  | cons p t ih =>
    rcases p with ⟨a, b⟩
    by_cases hk : k = a
    · simp [List.lookup, hk]
    · have hk' : (k == a) = false := by simp [hk]
      simp only [List.cons_append, List.lookup, hk']
      exact ih (by simpa [List.lookup, hk'] using h)

theorem lookup_append_of_none (l l2 : List (String × Nat)) (k : String)
    (h : l.lookup k = none) : (l ++ l2).lookup k = l2.lookup k := by
  induction l with
  | nil => simp
  | cons p t ih =>
    rcases p with ⟨a, b⟩
    by_cases hk : k = a
    · simp [List.lookup, hk] at h
    · have hk' : (k == a) = false := by simp [hk]
      simp only [List.cons_append, List.lookup, hk']
      exact ih (by simpa [List.lookup, hk'] using h)

theorem download_file_skip (net : String → Option Nat) (st : DlState) (url : String)
    (h : (st.files.lookup (dlFilename url)).isSome) :
    download_file net st url = Except.ok (st, DlOutcome.skipped) := by
  simp [download_file, h]

theorem download_file_lookup_preserved (net : String → Option Nat) (st : DlState)
    (url : String) (st' : DlState) (o : DlOutcome) (name : String)
    (hok : download_file net st url = Except.ok (st', o))
    (h : (st.files.lookup name).isSome) :
    st'.files.lookup name = st.files.lookup name := by
  by_cases hs : (st.files.lookup (dlFilename url)).isSome
  · rw [download_file_skip net st url hs] at hok
    cases hok
    rfl
  · simp only [download_file, hs, if_false] at hok
    cases hnet : net url with
    | none => rw [hnet] at hok; cases hok
    | some c =>
      rw [hnet] at hok
      cases hok
      exact lookup_append_of_isSome st.files [(dlFilename url, c)] name h

theorem downloadAll_lookup_preserved (net : String → Option Nat) :
    ∀ (urls : List String) (st : DlState) (name : String),
      (st.files.lookup name).isSome →
      ((downloadAll net st urls).1.files.lookup name) = st.files.lookup name := by
  intro urls
  induction urls with
  | nil => intro st name _; rfl
  | cons u rest ih =>
    intro st name h
    cases hdf : download_file net st u with
    | error e => simp [downloadAll, hdf]
    | ok r =>
      rcases r with ⟨st', o⟩
      have hpres := download_file_lookup_preserved net st u st' o name hdf h
      simp only [downloadAll, hdf]
      rw [ih st' name (by rw [hpres]; exact h), hpres]

theorem downloadAll_ok_mem (net : String → Option Nat) :
    ∀ (urls : List String) (st st1 : DlState),
      downloadAll net st urls = (st1, none) →
      ∀ u ∈ urls, (st1.files.lookup (dlFilename u)).isSome := by
  intro urls
  induction urls with
  | nil => intro st st1 _ u hu; exact absurd hu (List.not_mem_nil u)
  | cons v rest ih =>
    intro st st1 hrun u hu
    cases hdf : download_file net st v with
    | error e =>
      simp only [downloadAll, hdf] at hrun
      cases hrun
    | ok r =>
      rcases r with ⟨st', o⟩
      simp only [downloadAll, hdf] at hrun
      rcases List.mem_cons.mp hu with h1 | h2
      · subst h1
        have hsome : (st'.files.lookup (dlFilename u)).isSome := by
          by_cases hs : (st.files.lookup (dlFilename u)).isSome
          · rw [download_file_skip net st u hs] at hdf
            cases hdf
            exact hs
          · simp only [download_file, hs, if_false] at hdf
            cases hnet : net u with
            | none => rw [hnet] at hdf; cases hdf
            | some c =>
              rw [hnet] at hdf
              cases hdf
              have hnone : st.files.lookup (dlFilename u) = none := by
                cases hl : st.files.lookup (dlFilename u) with
                | none => rfl
                | some x => rw [hl] at hs; simp at hs
              rw [lookup_append_of_none st.files [(dlFilename u, c)] (dlFilename u) hnone]
              simp [List.lookup]
        have := downloadAll_lookup_preserved net rest st' (dlFilename u) hsome
        rw [hrun] at this
        rw [this]
        exact hsome
      · exact ih st' st1 hrun u h2

theorem downloadAll_all_present (net : String → Option Nat) :
    ∀ (urls : List String) (st : DlState),
      (∀ u ∈ urls, (st.files.lookup (dlFilename u)).isSome) →
      downloadAll net st urls = (st, none) := by
  intro urls
  induction urls with
  | nil => intro st _; rfl
  | cons u rest ih =>
    intro st h
    have hu := h u (List.mem_cons_self u rest)
    simp only [downloadAll, download_file_skip net st u hu]
    exact ih st (fun v hv => h v (List.mem_cons_of_mem u hv))

/-! ## Claims -/

/-- C1 (counterexample): the claim states that a fetch error while
downloading one asset does not abort the remaining downloads and that the
run completes without raising.  On the code, download_file has no exception
handler: with three video URLs of which the middle one is unreachable, the
run propagates the exception (the result carries the raised error) and the
third URL is never processed (no transfer, no file). -/
theorem download_abort_cex :
    (downloadAll netB ⟨[], []⟩ urls3).2 = some "https://h.test/video/b.mp4" ∧
    "https://h.test/video/c.mp4" ∉ (downloadAll netB ⟨[], []⟩ urls3).1.transfers ∧
    (downloadAll netB ⟨[], []⟩ urls3).1.files.lookup "c.mp4" = none := by decide

/-- C1 (amended): a fetch error while downloading one asset raises and
aborts the downloads of all remaining assets: when the next URL has no
already-existing file and its fetch fails, the loop stops there, the
exception propagates (carried as the error component), the remaining URLs
are not processed, and the filesystem state reached so far is returned
unchanged (earlier completed downloads are kept). -/
theorem download_fetch_error_aborts (net : String → Option Nat) (st : DlState)
    (u : String) (rest : List String)
    (hnf : st.files.lookup (dlFilename u) = none) (hfail : net u = none) :
    downloadAll net st (u :: rest) = (st, some u) := by
  simp [downloadAll, download_file, hnf, hfail]

/-- Witness for C1 (amended) at a concrete failing URL. -/
theorem download_fetch_error_aborts_witness :
    downloadAll netB ⟨[], []⟩
        ["https://h.test/video/b.mp4", "https://h.test/video/c.mp4"] =
      (⟨[], []⟩, some "https://h.test/video/b.mp4") :=
  download_fetch_error_aborts netB ⟨[], []⟩ "https://h.test/video/b.mp4"
    ["https://h.test/video/c.mp4"] (by decide) (by decide)

/-- C2 (counterexample): the claim states that is_internal_link returns
false for a fragment-only href.  On the code, a fragment-only href resolves
(via urljoin against BASE_URL) to the base URL itself, whose netloc equals
the root netloc, so is_internal_link returns true. -/
theorem is_internal_link_fragment_cex :
    is_internal_link "https://x.test/" (some "#section") = true := by decide

/-- C2 (amended): is_internal_link returns false for an empty or missing
href (for every configured root), returns TRUE for a fragment-only href
such as "#section" (it resolves to the root URL's own network location;
fragment-only hrefs only become empty, hence rejected, after the caller
gather_page_urls strips the fragment), returns false for an href resolving
to a different network location, and true for a site-relative href "/a". -/
theorem is_internal_link_spec :
    (∀ base : String, is_internal_link base none = false ∧
      is_internal_link base (some "") = false) ∧
    is_internal_link "https://x.test/" (some "#section") = true ∧
    is_internal_link "https://x.test/" (some "https://other.test/a") = false ∧
    is_internal_link "https://x.test/" (some "/a") = true := by
  refine ⟨fun base => ⟨rfl, rfl⟩, by decide, by decide, by decide⟩

/-- C3 (counterexample): the claim states that the pattern pass captures
the non-greedy (shortest) matching path, so that src="/video/a.mp4x.mp4"
yields the capture /video/a.mp4.  The repetition in the code's regex is
greedy: the capture is /video/a.mp4x.mp4 and /video/a.mp4 is not among the
captures. -/
theorem find_video_pattern_cex :
    findallVideo "src" "src=\"/video/a.mp4x.mp4\"" = ["/video/a.mp4x.mp4"] ∧
    "/video/a.mp4" ∉ findallVideo "src" "src=\"/video/a.mp4x.mp4\"" := by decide

/-- C3 (amended): the pattern pass captures the greedy (longest) matching
path: whenever the backtracking search of the repetition succeeds with
count j, the extension tail matches at j and at no larger feasible count,
and on the claim's own example the captured path is /video/a.mp4x.mp4. -/
theorem find_video_pattern_greedy (rest : List Char) (j0 j : Nat)
    (ext : List Char) (h : tryFrom rest j0 = some (j, ext)) :
    (j ≤ j0 ∧ extAt rest j = some ext ∧
      ∀ j', j < j' → j' ≤ j0 → extAt rest j' = none) ∧
    findallVideo "src" "src=\"/video/a.mp4x.mp4\"" = ["/video/a.mp4x.mp4"] := by
  refine ⟨?_, by decide⟩
  induction j0 with
  | zero => simp [tryFrom] at h
  | succ j0 ih =>
    simp only [tryFrom] at h
    cases hext : extAt rest (j0 + 1) with
    | some e =>
      rw [hext] at h
      cases h
      exact ⟨le_refl _, hext, fun j' h1 h2 => absurd h2 (Nat.not_le_of_lt h1)⟩
    | none =>
      rw [hext] at h
      obtain ⟨h1, h2, h3⟩ := ih h
      refine ⟨Nat.le_succ_of_le h1, h2, ?_⟩
      intro j' hlt hle
      by_cases hj : j' = j0 + 1
      · rw [hj]; exact hext
      · exact h3 j' hlt (by omega)

/-- Witness for C3 (amended): on the example value a.mp4x.mp4 the greedy
search returns count 6 (the full a.mp4x before the final .mp4), and the
extension does not match at the larger feasible count 8. -/
theorem find_video_pattern_greedy_witness :
    extAt ("a.mp4x.mp4".toList) 8 = none ∧
    findallVideo "src" "src=\"/video/a.mp4x.mp4\"" = ["/video/a.mp4x.mp4"] :=
  ⟨(find_video_pattern_greedy ("a.mp4x.mp4".toList) 10 6 (".mp4".toList)
      (by decide)).1.2.2 8 (by decide) (by decide),
   (find_video_pattern_greedy ("a.mp4x.mp4".toList) 10 6 (".mp4".toList)
      (by decide)).2⟩

/-- C4: throughout every crawl run from the initial state, the frontier
(to_crawl) and the visited set (visited_pages) are disjoint at the start of
each loop iteration, the visited set only grows from each iteration to the
next, and the fetch log (the URLs issued as HTTP GETs by the scheduler) has
no duplicates, i.e. no URL is fetched twice. -/
theorem crawl_visited_frontier_invariants (env : CrawlEnv)
    (pick : Nat → Finset String → String) (maxPages : Nat) (base : String)
    (n : Nat) :
    Disjoint (crawlLoop env pick maxPages 0 n (initState base)).frontier
      (crawlLoop env pick maxPages 0 n (initState base)).visited ∧
    (crawlLoop env pick maxPages 0 n (initState base)).visited ⊆
      (crawlLoop env pick maxPages 0 (n + 1) (initState base)).visited ∧
    ((crawlLoop env pick maxPages 0 n (initState base)).fetchLog).Nodup := by
  have hinit : CrawlInv (initState base) := by
    refine ⟨?_, List.nodup_nil, ?_⟩
    · simp [initState]
    · intro u hu; simp [initState] at hu
  have hinv := crawlLoop_inv env pick maxPages n 0 (initState base) hinit
  exact ⟨hinv.1, crawlLoop_succ_fuel_mono env pick maxPages n 0 (initState base),
    hinv.2.1⟩

/-- C5: for every crawl run with page ceiling maxPages, the visited set
never exceeds maxPages elements at any point of the run, and at most
maxPages HTTP GETs are issued by the scheduler. -/
theorem crawl_page_ceiling (env : CrawlEnv)
    (pick : Nat → Finset String → String) (maxPages : Nat) (base : String)
    (n : Nat) :
    (crawlLoop env pick maxPages 0 n (initState base)).visited.card ≤ maxPages ∧
    ((crawlLoop env pick maxPages 0 n (initState base)).fetchLog).length ≤ maxPages := by
  have hcard := crawlLoop_card_le env pick maxPages n 0 (initState base)
    (by simp [initState])
  have hinit : CrawlInv (initState base) := by
    refine ⟨?_, List.nodup_nil, ?_⟩
    · simp [initState]
    · intro u hu; simp [initState] at hu
  have hinv := crawlLoop_inv env pick maxPages n 0 (initState base) hinit
  exact ⟨hcard,
    le_trans (log_length_le_card _ _ hinv.2.1 hinv.2.2) hcard⟩

/-- C6: a fetch failure is non-fatal: when the URL selected from the
frontier fails to fetch, the scheduler adds it to the visited set and the
loop continues with the next iteration; once a URL is visited its count in
the fetch log never changes again (it is never re-fetched); and if the root
URL itself fails, the run terminates cleanly with empty found set (and
empty frontier), the loop condition being false. -/
theorem crawl_fetch_failure_nonfatal (env : CrawlEnv)
    (pick : Nat → Finset String → String) (maxPages : Nat) (base : String)
    (n : Nat) (hpick : ∀ k t, t.Nonempty → pick k t ∈ t) (hmp : 0 < maxPages)
    (hfail : env.fetch base = none) :
    (∀ (i m : Nat) (s : CrawlState), crawlCond maxPages s →
        pick i s.frontier ∉ s.visited → env.fetch (pick i s.frontier) = none →
        (crawlStep env (pick i s.frontier) s).visited =
          insert (pick i s.frontier) s.visited ∧
        crawlLoop env pick maxPages i (m + 1) s =
          crawlLoop env pick maxPages (i + 1) m
            (crawlStep env (pick i s.frontier) s)) ∧
    (∀ (i m : Nat) (s : CrawlState) (u : String), u ∈ s.visited →
        ((crawlLoop env pick maxPages i m s).fetchLog).count u =
          s.fetchLog.count u) ∧
    (crawlLoop env pick maxPages 0 (n + 1) (initState base) =
        ⟨{base}, ∅, ∅, [base]⟩ ∧
      ¬ crawlCond maxPages (crawlLoop env pick maxPages 0 (n + 1) (initState base))) := by
  have hb : pick 0 (initState base).frontier = base := by
    have hmem := hpick 0 (initState base).frontier ⟨base, by simp [initState]⟩
    simpa [initState] using hmem
  have hcond : crawlCond maxPages (initState base) := by
    refine ⟨?_, ?_⟩
    · simp [initState]
    · simpa [initState] using hmp
  have hstep : crawlStep env (pick 0 (initState base).frontier) (initState base) =
      ⟨{base}, ∅, ∅, [base]⟩ := by
    rw [hb, crawlStep_of_fail env base (initState base) (by simp [initState]) hfail]
    simp [initState]
  have hloop : crawlLoop env pick maxPages 0 (n + 1) (initState base) =
      ⟨{base}, ∅, ∅, [base]⟩ := by
    rw [crawlLoop_succ_of_cond env pick maxPages 0 n (initState base) hcond, hstep]
    exact crawlLoop_of_not_cond env pick maxPages 1 n _ (fun hc => hc.1 rfl)
  refine ⟨?_, ?_, hloop, ?_⟩
  · intro i m s hc hnv hf
    exact ⟨crawlStep_visited_of_not_mem env _ s hnv,
      crawlLoop_succ_of_cond env pick maxPages i m s hc⟩
  · intro i m s u hu
    exact crawlLoop_count_of_visited env pick maxPages m i s u hu
  · rw [hloop]
    exact fun hc => hc.1 rfl

/-- Witness for C6: with every fetch failing and ceiling 1, one loop
iteration from the root yields the terminal state with the root visited,
nothing found, and an empty frontier. -/
theorem crawl_fetch_failure_nonfatal_witness :
    0 < 1 ∧
    crawlLoop envFail defaultPick 1 0 1 (initState "https://x.test/") =
      ⟨{"https://x.test/"}, ∅, ∅, ["https://x.test/"]⟩ :=
  ⟨Nat.one_pos,
    (crawl_fetch_failure_nonfatal envFail defaultPick 1 "https://x.test/" 0
      defaultPick_valid Nat.one_pos rfl).2.2.1⟩

/-- C7: skip-if-exists and idempotence of the Asset Downloader: a URL whose
derived filename already exists is skipped with no network transfer and no
state change; after a completed (error-free) run, re-running the downloader
on the same URL list returns the same state with no error (zero transfers,
for any network behaviour on the second call); and no run ever changes the
content recorded for an already-existing filename. -/
theorem download_skip_idempotent (net net2 : String → Option Nat)
    (st st1 : DlState) (url : String) (urls : List String)
    (hex : (st.files.lookup (dlFilename url)).isSome)
    (hok : downloadAll net st urls = (st1, none)) :
    download_file net st url = Except.ok (st, DlOutcome.skipped) ∧
    downloadAll net2 st1 urls = (st1, none) ∧
    (∀ (net' : String → Option Nat) (st' : DlState) (urls' : List String)
        (name : String), (st'.files.lookup name).isSome →
      (downloadAll net' st' urls').1.files.lookup name = st'.files.lookup name) := by
  refine ⟨download_file_skip net st url hex, ?_, ?_⟩
  · exact downloadAll_all_present net2 urls st1 (downloadAll_ok_mem net urls st st1 hok)
  · intro net' st' urls' name h
    exact downloadAll_lookup_preserved net' urls' st' name h

/-- Witness for C7 at a concrete state whose folder already holds a.mp4. -/
theorem download_skip_idempotent_witness :
    download_file netB stA "https://h.test/video/a.mp4" =
      Except.ok (stA, DlOutcome.skipped) ∧
    downloadAll netB stA ["https://h.test/video/a.mp4"] = (stA, none) :=
  ⟨(download_skip_idempotent netB netB stA stA "https://h.test/video/a.mp4"
      ["https://h.test/video/a.mp4"] (by decide) (by decide)).1,
   (download_skip_idempotent netB netB stA stA "https://h.test/video/a.mp4"
      ["https://h.test/video/a.mp4"] (by decide) (by decide)).2.1⟩

/-- C8: the crawl loop terminates for every finite ceiling: the loop
condition is false exactly when the frontier is empty or the visited set
has reached the ceiling, and from any state some finite fuel reaches a
state where the condition is false (every iteration either adds a new URL
to the bounded visited set or strictly shrinks the frontier). -/
theorem crawl_scheduler_terminates (env : CrawlEnv)
    (pick : Nat → Finset String → String) (maxPages : Nat)
    (hpick : ∀ k t, t.Nonempty → pick k t ∈ t) (i : Nat) (s : CrawlState) :
    (∀ t, ¬ crawlCond maxPages t ↔
      (t.frontier = ∅ ∨ maxPages ≤ t.visited.card)) ∧
    ∃ n, ¬ crawlCond maxPages (crawlLoop env pick maxPages i n s) := by
  constructor
  · intro t
    unfold crawlCond
    constructor
    · intro h
      by_cases hf : t.frontier = ∅
      · exact Or.inl hf
      · refine Or.inr ?_
        by_contra hcard
        exact h ⟨hf, Nat.lt_of_not_le hcard⟩
    · rintro (h | h) ⟨h1, h2⟩
      · exact h1 h
      · omega
  · exact crawl_term_aux env pick maxPages hpick (maxPages - s.visited.card)
      s.frontier.card i s le_rfl le_rfl

/-- Witness for C8 with the concrete all-failing environment. -/
theorem crawl_scheduler_terminates_witness :
    ∃ n, ¬ crawlCond 1
      (crawlLoop envFail defaultPick 1 0 n (initState "https://x.test/")) :=
  (crawl_scheduler_terminates envFail defaultPick 1 defaultPick_valid 0
    (initState "https://x.test/")).2

/-- C9: the download loop of main processes the final video URL set in
ascending sorted order of the URL string: the processing order is sorted,
enumerates exactly the set, and is the unique such list, hence a
deterministic function of the set's contents. -/
theorem download_order_deterministic (s : Finset String) (l : List String)
    (hl : l.Sorted (fun a b => a < b)) (hmem : ∀ x, x ∈ l ↔ x ∈ s) :
    (downloadOrder s).Sorted (fun a b => a ≤ b) ∧
    (∀ x, x ∈ downloadOrder s ↔ x ∈ s) ∧ l = downloadOrder s := by
  refine ⟨Finset.sort_sorted _ s, fun x => Finset.mem_sort _, ?_⟩
  have hnodupl : l.Nodup := hl.nodup
  have hnodups : (downloadOrder s).Nodup := Finset.sort_nodup _ s
  have hperm : l.Perm (downloadOrder s) := by
    apply List.perm_of_nodup_nodup_toFinset_eq hnodupl hnodups
    ext x
    simp only [List.mem_toFinset, hmem, downloadOrder, Finset.mem_sort]
  exact List.eq_of_perm_of_sorted hperm hl.le_of_lt
    (Finset.sort_sorted_lt s).le_of_lt

/-- Witness for C9 on a two-element set. -/
theorem download_order_deterministic_witness :
    (["a", "b"] : List String) = downloadOrder {"a", "b"} :=
  (download_order_deterministic {"a", "b"} ["a", "b"]
    (by
      refine List.sorted_cons.mpr ⟨?_, List.sorted_singleton "b"⟩
      intro b hb
      rw [List.mem_singleton] at hb
      rw [hb, String.lt_iff_toList_lt]
      decide)
    (by intro x; simp)).2.2

/-- C10: in an iteration whose selected URL fails to fetch, the found set
is unchanged and the frontier only loses the selected URL (nothing is
added); the only state changes are that removal, the addition of the URL to
the visited set, and the fetch-log entry for the GET that was issued. -/
theorem crawl_failed_fetch_state_change (env : CrawlEnv)
    (pick : Nat → Finset String → String) (maxPages i : Nat) (s : CrawlState)
    (_hcond : crawlCond maxPages s) (hnv : pick i s.frontier ∉ s.visited)
    (hfail : env.fetch (pick i s.frontier) = none) :
    (crawlStep env (pick i s.frontier) s).found = s.found ∧
    (crawlStep env (pick i s.frontier) s).frontier =
      s.frontier.erase (pick i s.frontier) ∧
    (crawlStep env (pick i s.frontier) s).visited =
      insert (pick i s.frontier) s.visited ∧
    (crawlStep env (pick i s.frontier) s).fetchLog =
      s.fetchLog ++ [pick i s.frontier] := by
  rw [crawlStep_of_fail env _ s hnv hfail]
  exact ⟨rfl, rfl, rfl, rfl⟩

/-- Witness for C10 with the concrete all-failing environment at the
initial state. -/
theorem crawl_failed_fetch_state_change_witness :
    crawlCond 1 (initState "https://x.test/") ∧
    (crawlStep envFail (defaultPick 0 (initState "https://x.test/").frontier)
        (initState "https://x.test/")).found = (initState "https://x.test/").found :=
  ⟨by decide,
   (crawl_failed_fetch_state_change envFail defaultPick 1 0
      (initState "https://x.test/") (by decide) (by decide) rfl).1⟩

/-! ## Validation of the library models on concrete inputs

These evaluations agree with CPython urllib.parse, posixpath and re on the
same inputs; they pin the behaviour of the embedded library models. -/

theorem urljoin_relative_eval : urljoin "https://x.test/" "/a" = "https://x.test/a" := by decide

theorem urljoin_fragment_eval : urljoin "https://x.test/" "#section" = "https://x.test/#section" := by decide

theorem urljoin_absolute_eval : urljoin "https://x.test/" "https://other.test/a" = "https://other.test/a" := by decide

theorem urljoin_merge_eval : urljoin "https://x.test/b/c" "d/e.mp4" = "https://x.test/b/d/e.mp4" := by decide

theorem urljoin_protocol_relative_eval : urljoin "https://x.test/" "//other.test/a" = "https://other.test/a" := by decide

theorem basename_eval : os_path_basename (urlparse "https://h.test/video/a.mp4" "").path = "a.mp4" := by decide

theorem findallVideo_dual_quote_eval : findallVideo "src" "<img src=\"/video/a.mp4\"> x src='/video/b.webm'" = ["/video/a.mp4", "/video/b.webm"] := by decide

theorem findallVideo_href_eval : findallVideo "href" "<a href=\"/video/c.mp4\">d</a>" = ["/video/c.mp4"] := by decide

theorem findallVideo_reject_eval : findallVideo "src" "src=\"/pix/a.mp4\" src=\"/video/a.png\"" = [] := by decide
